import Mathlib

/-!
# threnslator — a verification development for `main.go`

The program is a webhook service: it parses a signed callback, and for every
text-message event asks a chat-completion API for a translation, then replies
on the event's reply token with `[<direction>] <translated text>`.

The development is a shallow embedding:

* a Go `string` is its sequence of bytes (`GoString`); what a
  `for _, r := range s` loop sees is obtained by decoding UTF-8 the way Go does
  (an invalid byte yields `U+FFFD` and the loop advances by one byte);
* the library functions the program calls (`strings.TrimSpace`, `errors.Is`,
  `fmt.Sprintf`, the rune decoders of package `utf8`) follow their documented
  behaviour, on bytes;
* the outside world (the completion stream, the reply endpoint, the webhook
  parser) is explicit data handed to the functions: a stream is the chunks its
  receives return without error, closed by the first error a receive returns
  (`io.EOF`, a transport error, or the expiry of the 30 second deadline);
* a run-time panic (an index out of range) is a result of its own,
  `Go.panicked`;
* the effects of the background task are collected in a trace, in order.
-/

namespace Threnslator

/-! ## Go strings -/

/-- A Go `string`, as its bytes (each below 256). -/
abbrev GoString := List Nat

/-- The replacement rune `utf8.RuneError`. -/
def RuneError : Nat := 0xFFFD

/-- The UTF-8 encoding of one code point (RFC 3629). -/
def encodeRune (c : Nat) : GoString :=
  if c < 0x80 then [c]
  else if c < 0x800 then [0xC0 + c / 64, 0x80 + c % 64]
  else if c < 0x10000 then [0xE0 + c / 4096, 0x80 + c / 64 % 64, 0x80 + c % 64]
  else [0xF0 + c / 262144, 0x80 + c / 4096 % 64, 0x80 + c / 64 % 64, 0x80 + c % 64]

/-- The bytes of a text given as a list of Unicode scalar values. -/
def utf8Chars : List Char → GoString
  | [] => []
  | c :: cs => encodeRune c.toNat ++ utf8Chars cs

/-- The bytes of a Go string literal (Go source text is UTF-8). -/
def utf8 (s : String) : GoString := utf8Chars s.data

/-- A Unicode scalar value: a code point that is not a surrogate. -/
def isScalar (n : Nat) : Prop := n < 0xD800 ∨ (0xDFFF < n ∧ n < 0x110000)

instance (n : Nat) : Decidable (isScalar n) :=
  inferInstanceAs (Decidable (n < 0xD800 ∨ (0xDFFF < n ∧ n < 0x110000)))

/-- The size announced by a leading byte (`first[s0] & 7` in package `utf8`);
`0` stands for the entries marked invalid (`xx`). -/
def runeSize (s0 : Nat) : Nat :=
  if s0 < 0x80 then 1
  else if s0 < 0xC2 then 0
  else if s0 < 0xE0 then 2
  else if s0 < 0xF0 then 3
  else if s0 < 0xF5 then 4
  else 0

/-- Lower bound accepted for the second byte (`acceptRanges[..].lo`). -/
def acceptLo (s0 : Nat) : Nat :=
  if s0 = 0xE0 then 0xA0 else if s0 = 0xF0 then 0x90 else 0x80

/-- Upper bound accepted for the second byte (`acceptRanges[..].hi`). -/
def acceptHi (s0 : Nat) : Nat :=
  if s0 = 0xED then 0x9F else if s0 = 0xF4 then 0x8F else 0xBF

/-- The first rune of a string and its width in bytes, as
`utf8.DecodeRuneInString` (and the `range` loop of the language) compute them.
The masks and shifts of the original are written arithmetically:
`s0 & 0x1F` is `s0 % 32`, `<< 6` is `* 64`, and `|` of disjoint bit fields is
`+`. -/
def decodeRune (s : GoString) : Nat × Nat :=
  let n := s.length
  if n < 1 then (RuneError, 0)
  else
    let s0 := s.getD 0 0
    let sz := runeSize s0
    if s0 < 0x80 then (s0, 1)
    else if sz = 0 then (RuneError, 1)
    else if n < sz then (RuneError, 1)
    else
      let s1 := s.getD 1 0
      if s1 < acceptLo s0 ∨ acceptHi s0 < s1 then (RuneError, 1)
      else if sz ≤ 2 then (s0 % 32 * 64 + s1 % 64, 2)
      else
        let s2 := s.getD 2 0
        if s2 < 0x80 ∨ 0xBF < s2 then (RuneError, 1)
        else if sz ≤ 3 then (s0 % 16 * 4096 + s1 % 64 * 64 + s2 % 64, 3)
        else
          let s3 := s.getD 3 0
          if s3 < 0x80 ∨ 0xBF < s3 then (RuneError, 1)
          else (s0 % 8 * 262144 + s1 % 64 * 4096 + s2 % 64 * 64 + s3 % 64, 4)

/-- The runes a `for _, r := range s` loop yields, with `fuel` bounding the
number of iterations. -/
def rangeRunes : Nat → GoString → List Nat
  | 0, _ => []
  | fuel + 1, s =>
    if s = [] then []
    else (decodeRune s).1 :: rangeRunes fuel (s.drop (decodeRune s).2)

/-- The runes of a string: every iteration consumes at least one byte, so
`s.length` iterations are enough (`rangeRunes_fuel`). -/
def runes (s : GoString) : List Nat := rangeRunes s.length s

/-! ## `looksThai` -/

/-- The loop `for _, r := range s` of `looksThai`: return `true` at the first
rune `r` with `r >= 0x0E00 && r <= 0x0E7F`, `false` when the string is
exhausted. -/
def looksThaiLoop : Nat → GoString → Bool
  | 0, _ => false
  | fuel + 1, s =>
    if s = [] then false
    else if 0x0E00 ≤ (decodeRune s).1 ∧ (decodeRune s).1 ≤ 0x0E7F then true
    else looksThaiLoop fuel (s.drop (decodeRune s).2)

/-- Go: `func looksThai(s string) bool` (main.go, lines 105 to 112). A loop over
`s.length` iterations reaches the end of the string, as every iteration consumes
at least one byte. -/
def looksThai (s : GoString) : Bool := looksThaiLoop s.length s

/-! ## `strings.TrimSpace` -/

/-- White space as defined by Unicode: `unicode.IsSpace`. -/
def isSpace (r : Nat) : Bool :=
  if r ≤ 0xFF then
    decide (r = 0x09 ∨ r = 0x0A ∨ r = 0x0B ∨ r = 0x0C ∨ r = 0x0D ∨ r = 0x20 ∨
      r = 0x85 ∨ r = 0xA0)
  else
    decide (r = 0x1680 ∨ (0x2000 ≤ r ∧ r ≤ 0x200A) ∨ r = 0x2028 ∨ r = 0x2029 ∨
      r = 0x202F ∨ r = 0x205F ∨ r = 0x3000)

/-- Whether a byte can start a rune: `utf8.RuneStart`, `b & 0xC0 != 0x80`. -/
def runeStart (b : Nat) : Bool := !(decide (0x80 ≤ b) && decide (b < 0xC0))

/-- Where the backward scan of `utf8.DecodeLastRuneInString` stops: the nearest
byte among the three before the last one that can start a rune; when there is
none the scan ends one position before its limit, clamped at `0`. -/
def lastRuneStart (s : GoString) : Nat :=
  let n := s.length
  if 2 ≤ n ∧ runeStart (s.getD (n - 2) 0) = true then n - 2
  else if 3 ≤ n ∧ runeStart (s.getD (n - 3) 0) = true then n - 3
  else if 4 ≤ n ∧ runeStart (s.getD (n - 4) 0) = true then n - 4
  else n - 5

/-- The last rune of a string and its width: `utf8.DecodeLastRuneInString`. -/
def decodeLastRune (s : GoString) : Nat × Nat :=
  let n := s.length
  if n = 0 then (RuneError, 0)
  else if s.getD (n - 1) 0 < 0x80 then (s.getD (n - 1) 0, 1)
  else
    let start := lastRuneStart s
    if start + (decodeRune (s.drop start)).2 ≠ n then (RuneError, 1)
    else decodeRune (s.drop start)

/-- Strip leading white-space runes (`strings.TrimLeftFunc(s, unicode.IsSpace)`). -/
def trimLeftLoop : Nat → GoString → GoString
  | 0, s => s
  | fuel + 1, s =>
    if s = [] then s
    else if isSpace (decodeRune s).1 = true then trimLeftLoop fuel (s.drop (decodeRune s).2)
    else s

/-- Strip trailing white-space runes (`strings.TrimRightFunc(s, unicode.IsSpace)`). -/
def trimRightLoop : Nat → GoString → GoString
  | 0, s => s
  | fuel + 1, s =>
    if s = [] then s
    else if isSpace (decodeLastRune s).1 = true then
      trimRightLoop fuel (s.take (s.length - (decodeLastRune s).2))
    else s

/-- Go: `strings.TrimSpace`: the string without its leading and trailing white
space, as defined by Unicode (`TrimFunc(s, unicode.IsSpace)`; the ASCII fast path
of the library gives the same result). -/
def TrimSpace (s : GoString) : GoString :=
  let l := trimLeftLoop s.length s
  trimRightLoop l.length l

/-- The string starts with a white-space character: it is not empty and its
first rune is white space. -/
def startsWithSpace (s : GoString) : Prop := s ≠ [] ∧ isSpace (decodeRune s).1 = true

instance (s : GoString) : Decidable (startsWithSpace s) :=
  inferInstanceAs (Decidable (s ≠ [] ∧ isSpace (decodeRune s).1 = true))

/-- The string ends with a white-space character: it is not empty and its last
rune is white space. -/
def endsWithSpace (s : GoString) : Prop := s ≠ [] ∧ isSpace (decodeLastRune s).1 = true

instance (s : GoString) : Decidable (endsWithSpace s) :=
  inferInstanceAs (Decidable (s ≠ [] ∧ isSpace (decodeLastRune s).1 = true))

/-! ## Errors and panics -/

/-- A non-nil Go `error`: `io.EOF`, an error wrapping another, or anything else. -/
inductive GoError
  | eof
  | wrap (msg : String) (inner : GoError)
  | other (msg : String)
deriving DecidableEq

/-- Go: `errors.Is(err, io.EOF)` for a non-nil error: follows the chain of
wrapped errors. -/
def GoError.isEOF : GoError → Bool
  | .eof => true
  | .wrap _ inner => inner.isEOF
  | .other _ => false

/-- Go: `errors.Is(err, io.EOF)`; a nil error is not `io.EOF`. -/
def errorsIsEOF : Option GoError → Bool
  | none => false
  | some e => e.isEOF

/-- The result of running Go code that may panic. -/
inductive Go (α : Type)
  | ret (a : α)
  | panicked (msg : String)
deriving DecidableEq

/-! ## The completion API -/

/-- The type `openai.ChatCompletionMessage` (fields used by the program). -/
structure ChatCompletionMessage where
  role : GoString
  content : GoString
deriving DecidableEq

/-- The type `openai.ChatCompletionRequest` (fields set by the program). -/
structure ChatCompletionRequest where
  model : GoString
  temperature : Nat
  topP : Nat
  messages : List ChatCompletionMessage
deriving DecidableEq

/-- One choice of a streamed chunk; `deltaContent` is `Delta.Content`. -/
structure ChatCompletionStreamChoice where
  deltaContent : GoString
deriving DecidableEq

/-- The type `openai.ChatCompletionStreamResponse`: one streamed chunk. -/
structure ChatCompletionStreamResponse where
  choices : List ChatCompletionStreamChoice
deriving DecidableEq

/-- What an opened stream does: its successive `Recv` calls return the chunks
with a nil error, and then `last`, the first non-nil error (`io.EOF` at a
normal end; a transport error or the expiry of the deadline otherwise). -/
structure ChatCompletionStream where
  chunks : List ChatCompletionStreamResponse
  last : GoError
deriving DecidableEq

/-- What `client.CreateChatCompletionStream(ctx, param)` does: it fails, or
returns a stream. -/
abbrev Client := ChatCompletionRequest → Except GoError ChatCompletionStream

/-- The constant `openai.ChatMessageRoleSystem`. -/
def ChatMessageRoleSystem : GoString := utf8 "system"

/-- The constant `openai.ChatMessageRoleUser`. -/
def ChatMessageRoleUser : GoString := utf8 "user"

/-- The constant `openai.GPT3Dot5Turbo`. -/
def GPT3Dot5Turbo : GoString := utf8 "gpt-3.5-turbo"

/-! ## `translate` -/

/-- The system instruction `sys` of `translate`. -/
def sys : GoString :=
  utf8 ("\n" ++
    "You are a strict EN⇄TH translator. Translate the USER message only.\n" ++
    "If input is English, output natural Thai (male default: ครับ). If input is Thai, output natural English.\n" ++
    "Never answer questions, never add greetings, never explain, never ask back.\n" ++
    "Do not add tags, prefixes, brackets, or language labels.\n" ++
    "If the input addresses “ChatGPT” or asks the assistant something, STILL translate it.\n" ++
    "Output only the translation text, nothing else.\n" ++
    "\n")

/-- The request `param` that `translate` builds for `text` (main.go, lines 55 to
77). `Temperature` is `0` and `TopP` is `1`. -/
def param (text : GoString) : ChatCompletionRequest :=
  { model := GPT3Dot5Turbo
    temperature := 0
    topP := 1
    messages :=
      [ { role := ChatMessageRoleSystem, content := sys },
        { role := utf8 "user", content := utf8 "สรุปแล้วพรุ่งนี้ว่างไหม" },
        { role := utf8 "assistant", content := utf8 "So are you free tomorrow, then?" },
        { role := utf8 "user", content := utf8 "hi chatgpt" },
        { role := utf8 "assistant", content := utf8 "สวัสดี ChatGPT ครับ" },
        { role := utf8 "user", content := utf8 "สวัสดีครับ" },
        { role := utf8 "assistant", content := utf8 "Hello" },
        { role := utf8 "user", content := utf8 "สวัสดีครับ" },
        { role := ChatMessageRoleUser, content := text } ] }

/-- The receive loop of `translate` (main.go, lines 85 to 94); `out` is the
builder. A receive without error appends `response.Choices[0].Delta.Content`,
and the index panics on an empty slice. The first receive with an error ends
the loop: a `break` when `errors.Is(err, io.EOF)`, a return of the error
otherwise. -/
def recvLoop : List ChatCompletionStreamResponse → GoError → GoString →
    Go (Except GoError GoString)
  | [], last, out =>
    if errorsIsEOF (some last) = true then .ret (.ok out) else .ret (.error last)
  | response :: rest, last, out =>
    match response.choices with
    | [] => .panicked "runtime error: index out of range [0] with length 0"
    | choice :: _ => recvLoop rest last (out ++ choice.deltaContent)

/-- The three results of `translate`. -/
structure TranslateResult where
  translated : GoString
  detected : GoString
  err : Option GoError
deriving DecidableEq

/-- Go: `func translate(ctx, client, text) (translated, detected string, err error)`
(main.go, lines 43 to 102). -/
def translate (client : Client) (text : GoString) : Go TranslateResult :=
  match client (param text) with
  | .error err => .ret ⟨[], [], some err⟩
  | .ok stream =>
    match recvLoop stream.chunks stream.last [] with
    | .panicked msg => .panicked msg
    | .ret (.error err) => .ret ⟨[], [], some err⟩
    | .ret (.ok out) =>
      let result := TrimSpace out
      if looksThai text = true then .ret ⟨result, utf8 "th→en", none⟩
      else .ret ⟨result, utf8 "en→th", none⟩

/-! ## The webhook -/

/-- The content of a message event; only text content is acted on. -/
inductive MessageContent
  | text (text : GoString)
  | other (kind : String)
deriving DecidableEq

/-- A webhook event; only message events are acted on. -/
inductive Event
  | message (replyToken : GoString) (message : MessageContent)
  | other (kind : String)
deriving DecidableEq

/-- The error of `webhook.ParseRequest`: the sentinel
`webhook.ErrInvalidSignature`, or any other error. -/
inductive ParseError
  | invalidSignature
  | other (msg : String)
deriving DecidableEq

/-- What `bot.ReplyMessage` does with a reply token and a text: the error it
returns, if any. -/
abbrev Sender := GoString → GoString → Option GoError

/-- The lines the program logs. -/
inductive LogLine
  | received
  | headers
  | cannotParse (err : ParseError)
  | translationError (err : GoError)
  | failedToSendError (err : GoError)
  | failedToSendTranslation (err : GoError)
  | sentTranslation
deriving DecidableEq

/-- The observable actions of the program. -/
inductive Effect
  | translateCall (text : GoString)
  | replyCall (replyToken : GoString) (text : GoString)
  | log (line : LogLine)
deriving DecidableEq

/-- What a piece of the background task did: its actions in order, and whether
it ended in a panic (which, unrecovered in a goroutine, ends the process). -/
structure Step where
  effects : List Effect
  panicked : Bool
deriving DecidableEq

/-- The text of the reply sent when `translate` fails. -/
def errorReply : GoString := utf8 "❌ Translation error, please try again"

/-- Go: `fmt.Sprintf("[%s] %s", dir, translated)`. -/
def replyText (dir translated : GoString) : GoString :=
  utf8 "[" ++ dir ++ utf8 "] " ++ translated

/-- The body of the event loop for one event (main.go, lines 154 to 194);
`client` and `send` are what the completion API and the reply endpoint do for
this event. -/
def processEvent (client : Client) (send : Sender) : Event → Step
  | .message replyToken (.text text) =>
    match translate client text with
    | .panicked _ => ⟨[.translateCall text], true⟩
    | .ret res =>
      match res.err with
      | some terr =>
        match send replyToken errorReply with
        | some err =>
          ⟨[.translateCall text, .log (.translationError terr),
            .replyCall replyToken errorReply, .log (.failedToSendError err)], false⟩
        | none =>
          ⟨[.translateCall text, .log (.translationError terr),
            .replyCall replyToken errorReply], false⟩
      | none =>
        let msg := replyText res.detected res.translated
        match send replyToken msg with
        | some err =>
          ⟨[.translateCall text, .replyCall replyToken msg,
            .log (.failedToSendTranslation err)], false⟩
        | none =>
          ⟨[.translateCall text, .replyCall replyToken msg, .log .sentTranslation], false⟩
  | .message _ (.other _) => ⟨[], false⟩
  | .other _ => ⟨[], false⟩

/-- The goroutine of the handler (main.go, lines 152 to 196): the events in
payload order, one after the other; `ai i` and `bot i` are what the two services
do for the event at position `i`. A panic ends the loop (and the process). -/
def eventLoop (ai : Nat → Client) (bot : Nat → Sender) : Nat → List Event → Step
  | _, [] => ⟨[], false⟩
  | i, event :: rest =>
    let s := processEvent (ai i) (bot i) event
    if s.panicked = true then s
    else
      let r := eventLoop ai bot (i + 1) rest
      ⟨s.effects ++ r.effects, r.panicked⟩

/-- What the handler of `/line/webhook` did for one request: the status it
wrote, what it logged itself, and the background task it started, if any. -/
structure HandlerResult where
  status : Nat
  logged : List LogLine
  background : Option Step
deriving DecidableEq

/-- The constant `http.StatusOK`. -/
def StatusOK : Nat := 200

/-- The constant `http.StatusBadRequest`. -/
def StatusBadRequest : Nat := 400

/-- The constant `http.StatusInternalServerError`. -/
def StatusInternalServerError : Nat := 500

/-- The handler of `/line/webhook` (main.go, lines 135 to 200); `parsed` is the
result of `webhook.ParseRequest` (the events of the callback, or an error). -/
def webhookHandler (parsed : Except ParseError (List Event)) (ai : Nat → Client)
    (bot : Nat → Sender) : HandlerResult :=
  match parsed with
  | .error err =>
    if err = ParseError.invalidSignature then
      ⟨StatusBadRequest, [.received, .headers, .cannotParse err], none⟩
    else
      ⟨StatusInternalServerError, [.received, .headers, .cannotParse err], none⟩
  | .ok events =>
    ⟨StatusOK, [.received, .headers], some (eventLoop ai bot 0 events)⟩

/-! ## What is counted in a trace -/

/-- The texts of the calls of `translate` in a trace, in order. -/
def translateCalls : List Effect → List GoString
  | [] => []
  | .translateCall text :: rest => text :: translateCalls rest
  | _ :: rest => translateCalls rest

/-- The replies (token and text) sent in a trace, in order. -/
def replyCalls : List Effect → List (GoString × GoString)
  | [] => []
  | .replyCall token text :: rest => (token, text) :: replyCalls rest
  | _ :: rest => replyCalls rest

/-- The texts of the text-message events of a payload, in payload order. -/
def textEvents : List Event → List GoString
  | [] => []
  | .message _ (.text text) :: rest => text :: textEvents rest
  | _ :: rest => textEvents rest

/-- The downstream calls of a handler run: the calls of `translate` and the
replies of its background task. -/
def downstreamCalls (r : HandlerResult) : List Effect :=
  match r.background with
  | none => []
  | some s => s.effects.filter (fun e =>
      match e with
      | .translateCall _ => true
      | .replyCall _ _ => true
      | .log _ => false)

/-! ## Vocabulary of the statements -/

/-- White space, for a character of a text. -/
def isSpaceChar (c : Char) : Bool := isSpace c.toNat

/-- The chunks of a stream whose receives yield the given fragments: each chunk
carries its fragment in its first choice, followed by any further choices. -/
def fragmentChunks (fr : List (GoString × List ChatCompletionStreamChoice)) :
    List ChatCompletionStreamResponse :=
  fr.map (fun p => ⟨⟨p.1⟩ :: p.2⟩)

/-- The fragments in arrival order, concatenated. -/
def concatFragments : List (GoString × List ChatCompletionStreamChoice) → GoString
  | [] => []
  | p :: rest => p.1 ++ concatFragments rest

/-! ## Decoding: widths, fuel, and agreement with the encoding -/

theorem decodeRune_nil : decodeRune [] = (RuneError, 0) := by
  simp [decodeRune]

/-- The decoder on a non-empty string, with the bytes it reads named. -/
theorem decodeRune_cons (s0 : Nat) (t : GoString) :
    decodeRune (s0 :: t) =
      if s0 < 0x80 then (s0, 1)
      else if runeSize s0 = 0 then (RuneError, 1)
      else if t.length + 1 < runeSize s0 then (RuneError, 1)
      else if t.getD 0 0 < acceptLo s0 ∨ acceptHi s0 < t.getD 0 0 then (RuneError, 1)
      else if runeSize s0 ≤ 2 then (s0 % 32 * 64 + t.getD 0 0 % 64, 2)
      else if t.getD 1 0 < 0x80 ∨ 0xBF < t.getD 1 0 then (RuneError, 1)
      else if runeSize s0 ≤ 3 then (s0 % 16 * 4096 + t.getD 0 0 % 64 * 64 + t.getD 1 0 % 64, 3)
      else if t.getD 2 0 < 0x80 ∨ 0xBF < t.getD 2 0 then (RuneError, 1)
      else (s0 % 8 * 262144 + t.getD 0 0 % 64 * 4096 + t.getD 1 0 % 64 * 64
              + t.getD 2 0 % 64, 4) := by
  unfold decodeRune
  simp only [List.getD_cons_zero, List.getD_cons_succ, List.length_cons]
  rw [if_neg (by omega)]

theorem decodeRune_ascii (s0 : Nat) (t : GoString) (h : s0 < 0x80) :
    decodeRune (s0 :: t) = (s0, 1) := by
  rw [decodeRune_cons, if_pos h]

theorem decodeRune_two (s0 s1 : Nat) (t : GoString) (h0 : 0xC2 ≤ s0 ∧ s0 < 0xE0)
    (h1 : 0x80 ≤ s1 ∧ s1 ≤ 0xBF) :
    decodeRune (s0 :: s1 :: t) = (s0 % 32 * 64 + s1 % 64, 2) := by
  have hsz : runeSize s0 = 2 := by
    unfold runeSize
    rw [if_neg (by omega), if_neg (by omega), if_pos (by omega)]
  have hlo : acceptLo s0 = 0x80 := by
    unfold acceptLo
    rw [if_neg (by omega), if_neg (by omega)]
  have hhi : acceptHi s0 = 0xBF := by
    unfold acceptHi
    rw [if_neg (by omega), if_neg (by omega)]
  rw [decodeRune_cons, hsz, hlo, hhi]
  simp only [List.getD_cons_zero, List.length_cons]
  rw [if_neg (by omega), if_neg (by omega), if_neg (by omega), if_neg (by omega),
    if_pos (by omega)]

theorem decodeRune_three (s0 s1 s2 : Nat) (t : GoString) (h0 : 0xE0 ≤ s0 ∧ s0 < 0xF0)
    (h1 : acceptLo s0 ≤ s1 ∧ s1 ≤ acceptHi s0) (h2 : 0x80 ≤ s2 ∧ s2 ≤ 0xBF) :
    decodeRune (s0 :: s1 :: s2 :: t) = (s0 % 16 * 4096 + s1 % 64 * 64 + s2 % 64, 3) := by
  have hsz : runeSize s0 = 3 := by
    unfold runeSize
    rw [if_neg (by omega), if_neg (by omega), if_neg (by omega), if_pos (by omega)]
  rw [decodeRune_cons, hsz]
  simp only [List.getD_cons_zero, List.getD_cons_succ, List.length_cons]
  rw [if_neg (by omega), if_neg (by omega), if_neg (by omega), if_neg (by omega),
    if_neg (by omega), if_neg (by omega), if_pos (by omega)]

theorem decodeRune_four (s0 s1 s2 s3 : Nat) (t : GoString) (h0 : 0xF0 ≤ s0 ∧ s0 < 0xF5)
    (h1 : acceptLo s0 ≤ s1 ∧ s1 ≤ acceptHi s0) (h2 : 0x80 ≤ s2 ∧ s2 ≤ 0xBF)
    (h3 : 0x80 ≤ s3 ∧ s3 ≤ 0xBF) :
    decodeRune (s0 :: s1 :: s2 :: s3 :: t)
      = (s0 % 8 * 262144 + s1 % 64 * 4096 + s2 % 64 * 64 + s3 % 64, 4) := by
  have hsz : runeSize s0 = 4 := by
    unfold runeSize
    rw [if_neg (by omega), if_neg (by omega), if_neg (by omega), if_neg (by omega),
      if_pos (by omega)]
  rw [decodeRune_cons, hsz]
  simp only [List.getD_cons_zero, List.getD_cons_succ, List.length_cons]
  rw [if_neg (by omega), if_neg (by omega), if_neg (by omega), if_neg (by omega),
    if_neg (by omega), if_neg (by omega), if_neg (by omega), if_neg (by omega)]

theorem runeSize_two_le (s0 : Nat) (h : ¬ s0 < 0x80) (h0 : ¬ runeSize s0 = 0) :
    2 ≤ runeSize s0 := by
  unfold runeSize at *
  split_ifs at * <;> omega

/-- Decoding consumes at least one byte of a non-empty string. -/
theorem decodeRune_width_pos (s : GoString) (h : s ≠ []) : 1 ≤ (decodeRune s).2 := by
  cases s with
  | nil => exact absurd rfl h
  | cons s0 t =>
    rw [decodeRune_cons]
    split_ifs <;> simp

/-- Decoding never consumes more bytes than the string has. -/
theorem decodeRune_width_le (s : GoString) : (decodeRune s).2 ≤ s.length := by
  cases s with
  | nil => simp [decodeRune_nil]
  | cons s0 t =>
    have hsz : s0 < 0x80 ∨ runeSize s0 = 0 ∨ 2 ≤ runeSize s0 := by
      by_cases h1 : s0 < 0x80
      · exact Or.inl h1
      · by_cases h2 : runeSize s0 = 0
        · exact Or.inr (Or.inl h2)
        · exact Or.inr (Or.inr (runeSize_two_le s0 h1 h2))
    rw [decodeRune_cons]
    split_ifs
    all_goals simp only [List.length_cons]
    all_goals omega

/-- More iterations than the length of the string do not change the runes that
the `range` loop yields: `s.length` iterations reach the end of the string. -/
theorem rangeRunes_fuel (fuel : Nat) (s : GoString) (h : s.length ≤ fuel) :
    rangeRunes fuel s = rangeRunes s.length s := by
  induction fuel using Nat.strong_induction_on generalizing s with
  | _ fuel ih =>
    cases s with
    | nil => cases fuel <;> simp [rangeRunes]
    | cons a t =>
      cases fuel with
      | zero => simp at h
      | succ fuel =>
        have hw := decodeRune_width_pos (a :: t) (by simp)
        have hlen : ((a :: t).drop (decodeRune (a :: t)).2).length ≤ t.length := by
          simp only [List.length_drop, List.length_cons]; omega
        simp only [List.length_cons] at h
        simp only [rangeRunes, List.length_cons]
        rw [ih fuel (by omega) _ (by omega), ih t.length (by omega) _ hlen]

/-- The loop of `looksThai` answers whether some rune yielded so far lies in the
Thai block. -/
theorem looksThaiLoop_eq_any (fuel : Nat) (s : GoString) :
    looksThaiLoop fuel s
      = (rangeRunes fuel s).any (fun r => decide (0x0E00 ≤ r ∧ r ≤ 0x0E7F)) := by
  induction fuel generalizing s with
  | zero => simp [looksThaiLoop, rangeRunes]
  | succ fuel ih =>
    simp only [looksThaiLoop, rangeRunes]
    by_cases hs : s = []
    · simp [hs]
    · simp only [hs, if_false, List.any_cons]
      by_cases hr : 0x0E00 ≤ (decodeRune s).1 ∧ (decodeRune s).1 ≤ 0x0E7F
      · simp [hr]
      · simp [hr, ih]

/-- More iterations than the length of the string do not change `looksThai`. -/
theorem looksThaiLoop_fuel (fuel : Nat) (s : GoString) (h : s.length ≤ fuel) :
    looksThaiLoop fuel s = looksThai s := by
  unfold looksThai
  rw [looksThaiLoop_eq_any, looksThaiLoop_eq_any, rangeRunes_fuel fuel s h]

/-- Decoding the encoding of a scalar value gives the value back, with the width
of the encoding, whatever follows. -/
theorem decodeRune_encodeRune (n : Nat) (rest : GoString) (h : isScalar n) :
    decodeRune (encodeRune n ++ rest) = (n, (encodeRune n).length) := by
  unfold isScalar at h
  unfold encodeRune
  split_ifs with a b c
  · exact decodeRune_ascii n rest a
  · simp only [List.cons_append, List.nil_append, List.length_cons, List.length_nil]
    rw [decodeRune_two _ _ _ (by omega) (by omega)]
    simp only [Prod.mk.injEq, and_true]
    omega
  · simp only [List.cons_append, List.nil_append, List.length_cons, List.length_nil]
    rw [decodeRune_three _ _ _ _ (by omega) (by unfold acceptLo acceptHi; split_ifs <;> omega)
      (by omega)]
    simp only [Prod.mk.injEq, and_true]
    omega
  · simp only [List.cons_append, List.nil_append, List.length_cons, List.length_nil]
    rw [decodeRune_four _ _ _ _ _ (by omega) (by unfold acceptLo acceptHi; split_ifs <;> omega)
      (by omega) (by omega)]
    simp only [Prod.mk.injEq, and_true]
    omega

theorem encodeRune_length_pos (n : Nat) : 1 ≤ (encodeRune n).length := by
  unfold encodeRune
  split_ifs <;> simp

theorem char_isScalar (c : Char) : isScalar c.toNat := by
  have h := c.valid
  unfold isScalar
  simpa [UInt32.isValidChar, Nat.isValidChar, Char.toNat] using h

theorem rangeRunes_utf8Chars (cs : List Char) (fuel : Nat)
    (h : (utf8Chars cs).length ≤ fuel) :
    rangeRunes fuel (utf8Chars cs) = cs.map Char.toNat := by
  induction cs generalizing fuel with
  | nil => cases fuel <;> simp [utf8Chars, rangeRunes]
  | cons c cs ih =>
    have hpos := encodeRune_length_pos c.toNat
    simp only [utf8Chars, List.length_append] at h
    cases fuel with
    | zero => omega
    | succ fuel =>
      have hne : ¬ (encodeRune c.toNat ++ utf8Chars cs = []) := by
        intro hnil
        have := congrArg List.length hnil
        simp only [List.length_append, List.length_nil] at this
        omega
      simp only [utf8Chars, rangeRunes, hne, if_false,
        decodeRune_encodeRune _ _ (char_isScalar c), List.drop_left, List.map_cons]
      rw [ih fuel (by omega)]

/-- The `range` loop over the encoding of a text yields the characters of the
text. -/
theorem runes_utf8Chars (cs : List Char) : runes (utf8Chars cs) = cs.map Char.toNat :=
  rangeRunes_utf8Chars cs _ (Nat.le_refl _)

/-! ## `TrimSpace`: the result is trimmed -/

/-- A rune that was decoded without error is decoded the same when more bytes
follow. -/
theorem decodeRune_append (a b : GoString) (h : (decodeRune a).1 ≠ RuneError) :
    decodeRune (a ++ b) = decodeRune a := by
  cases a with
  | nil => simp [decodeRune_nil] at h
  | cons s0 t =>
    rw [decodeRune_cons] at h
    rw [List.cons_append, decodeRune_cons, decodeRune_cons]
    by_cases h1 : s0 < 0x80
    · rw [if_pos h1, if_pos h1]
    rw [if_neg h1] at h ⊢
    rw [if_neg h1]
    by_cases h2 : runeSize s0 = 0
    · rw [if_pos h2, if_pos h2]
    rw [if_neg h2] at h ⊢
    rw [if_neg h2]
    have hsz := runeSize_two_le s0 h1 h2
    by_cases h3 : t.length + 1 < runeSize s0
    · rw [if_pos h3] at h
      exact absurd rfl h
    rw [if_neg h3] at h ⊢
    rw [if_neg (by simp only [List.length_append]; omega)]
    have g0 : (t ++ b).getD 0 0 = t.getD 0 0 := List.getD_append _ _ _ _ (by omega)
    rw [g0]
    by_cases h4 : t.getD 0 0 < acceptLo s0 ∨ acceptHi s0 < t.getD 0 0
    · rw [if_pos h4, if_pos h4]
    rw [if_neg h4] at h ⊢
    rw [if_neg h4]
    by_cases h5 : runeSize s0 ≤ 2
    · rw [if_pos h5, if_pos h5]
    rw [if_neg h5] at h ⊢
    rw [if_neg h5]
    have g1 : (t ++ b).getD 1 0 = t.getD 1 0 := List.getD_append _ _ _ _ (by omega)
    rw [g1]
    by_cases h6 : t.getD 1 0 < 0x80 ∨ 0xBF < t.getD 1 0
    · rw [if_pos h6, if_pos h6]
    rw [if_neg h6] at h ⊢
    rw [if_neg h6]
    by_cases h7 : runeSize s0 ≤ 3
    · rw [if_pos h7, if_pos h7]
    rw [if_neg h7] at h ⊢
    rw [if_neg h7]
    have g2 : (t ++ b).getD 2 0 = t.getD 2 0 := List.getD_append _ _ _ _ (by omega)
    rw [g2]

theorem isSpace_RuneError : isSpace RuneError = false := by decide

theorem startsWithSpace_of_take (s : GoString) (k : Nat) (h : startsWithSpace (s.take k)) :
    startsWithSpace s := by
  obtain ⟨hne, hsp⟩ := h
  have hdec : decodeRune s = decodeRune (s.take k) := by
    have hx : (decodeRune (s.take k)).1 ≠ RuneError := by
      intro hx
      rw [hx, isSpace_RuneError] at hsp
      exact Bool.noConfusion hsp
    have := decodeRune_append (s.take k) (s.drop k) hx
    rwa [List.take_append_drop] at this
  refine ⟨?_, by rw [hdec]; exact hsp⟩
  intro hs
  rw [hs] at hne
  simp at hne

theorem trimLeftLoop_not_startsWithSpace (fuel : Nat) (s : GoString) (h : s.length ≤ fuel) :
    ¬ startsWithSpace (trimLeftLoop fuel s) := by
  induction fuel generalizing s with
  | zero =>
    have : s = [] := List.length_eq_zero.mp (by omega)
    simp [trimLeftLoop, startsWithSpace, this]
  | succ fuel ih =>
    simp only [trimLeftLoop]
    by_cases hs : s = []
    · simp [hs, startsWithSpace]
    · rw [if_neg hs]
      by_cases hsp : isSpace (decodeRune s).1 = true
      · rw [if_pos hsp]
        apply ih
        have := decodeRune_width_pos s hs
        have : 0 < s.length := List.length_pos.mpr hs
        simp only [List.length_drop]
        omega
      · rw [if_neg hsp]
        exact fun h => hsp h.2

theorem decodeLastRune_width_pos (s : GoString) (h : s ≠ []) : 1 ≤ (decodeLastRune s).2 := by
  have hn : 0 < s.length := List.length_pos.mpr h
  unfold decodeLastRune
  simp only
  rw [if_neg (by omega)]
  split_ifs with h1 h2
  · simp
  · simp
  · have h3 : lastRuneStart s < s.length := by
      unfold lastRuneStart
      simp only
      split_ifs <;> omega
    have := not_not.mp h2
    omega

theorem trimRightLoop_take (fuel : Nat) (s : GoString) :
    ∃ k, trimRightLoop fuel s = s.take k := by
  induction fuel generalizing s with
  | zero => exact ⟨s.length, by simp [trimRightLoop]⟩
  | succ fuel ih =>
    simp only [trimRightLoop]
    split_ifs with h1 h2
    · exact ⟨s.length, by simp⟩
    · obtain ⟨k, hk⟩ := ih (s.take (s.length - (decodeLastRune s).2))
      exact ⟨min k (s.length - (decodeLastRune s).2), by rw [hk, List.take_take]⟩
    · exact ⟨s.length, by simp⟩

theorem trimRightLoop_not_endsWithSpace (fuel : Nat) (s : GoString) (h : s.length ≤ fuel) :
    ¬ endsWithSpace (trimRightLoop fuel s) := by
  induction fuel generalizing s with
  | zero =>
    have : s = [] := List.length_eq_zero.mp (by omega)
    simp [trimRightLoop, endsWithSpace, this]
  | succ fuel ih =>
    simp only [trimRightLoop]
    by_cases hs : s = []
    · simp [hs, endsWithSpace]
    · rw [if_neg hs]
      by_cases hsp : isSpace (decodeLastRune s).1 = true
      · rw [if_pos hsp]
        apply ih
        have := decodeLastRune_width_pos s hs
        have : 0 < s.length := List.length_pos.mpr hs
        simp only [List.length_take]
        omega
      · rw [if_neg hsp]
        exact fun h => hsp h.2

/-- More iterations than the length of the string do not change the result of
stripping leading white space. -/
theorem trimLeftLoop_fuel (fuel : Nat) (s : GoString) (h : s.length ≤ fuel) :
    trimLeftLoop fuel s = trimLeftLoop s.length s := by
  induction fuel using Nat.strong_induction_on generalizing s with
  | _ fuel ih =>
    cases s with
    | nil => cases fuel <;> simp [trimLeftLoop]
    | cons a t =>
      cases fuel with
      | zero => simp at h
      | succ fuel =>
        have hw := decodeRune_width_pos (a :: t) (by simp)
        have hlen : ((a :: t).drop (decodeRune (a :: t)).2).length ≤ t.length := by
          simp only [List.length_drop, List.length_cons]; omega
        simp only [List.length_cons] at h
        simp only [trimLeftLoop, List.length_cons]
        rw [ih fuel (by omega) _ (by omega), ih t.length (by omega) _ hlen]

/-- More iterations than the length of the string do not change the result of
stripping trailing white space. -/
theorem trimRightLoop_fuel (fuel : Nat) (s : GoString) (h : s.length ≤ fuel) :
    trimRightLoop fuel s = trimRightLoop s.length s := by
  induction fuel using Nat.strong_induction_on generalizing s with
  | _ fuel ih =>
    cases s with
    | nil => cases fuel <;> simp [trimRightLoop]
    | cons a t =>
      cases fuel with
      | zero => simp at h
      | succ fuel =>
        have hw := decodeLastRune_width_pos (a :: t) (by simp)
        have hlen : ((a :: t).take ((a :: t).length - (decodeLastRune (a :: t)).2)).length
            ≤ t.length := by
          simp only [List.length_take, List.length_cons]; omega
        simp only [List.length_cons] at h
        simp only [trimRightLoop]
        rw [ih fuel (by omega) _ (by simp only [List.length_cons] at hlen ⊢; omega),
          ih t.length (by omega) _ hlen]

/-- The result of `TrimSpace` neither starts nor ends with white space. -/
theorem TrimSpace_trimmed (s : GoString) :
    ¬ startsWithSpace (TrimSpace s) ∧ ¬ endsWithSpace (TrimSpace s) := by
  unfold TrimSpace
  simp only
  refine ⟨?_, trimRightLoop_not_endsWithSpace _ _ (Nat.le_refl _)⟩
  obtain ⟨k, hk⟩ := trimRightLoop_take (trimLeftLoop s.length s).length (trimLeftLoop s.length s)
  rw [hk]
  intro h
  exact trimLeftLoop_not_startsWithSpace _ _ (Nat.le_refl _) (startsWithSpace_of_take _ _ h)

/-! ## `TrimSpace` on the encoding of a text -/

theorem getD_append_add (pre l : GoString) (k n : Nat) (h : n = pre.length + k) :
    (pre ++ l).getD n 0 = l.getD k 0 := by
  subst h
  rw [List.getD_append_right _ _ _ _ (by omega)]
  congr 1
  omega

theorem runeStart_lead (b : Nat) (h : 0xC0 ≤ b) : runeStart b = true := by
  unfold runeStart
  have : ¬ b < 0xC0 := by omega
  simp [this]

theorem runeStart_cont (b : Nat) (h : 0x80 ≤ b ∧ b < 0xC0) : runeStart b = false := by
  unfold runeStart
  simp [h.1, h.2]

theorem decodeLastRune_ascii (pre : GoString) (c : Nat) (h : c < 0x80) :
    decodeLastRune (pre ++ [c]) = (c, 1) := by
  unfold decodeLastRune
  simp only [List.length_append, List.length_cons, List.length_nil]
  rw [if_neg (by omega), getD_append_add pre [c] 0 _ (by omega)]
  simp only [List.getD_cons_zero]
  rw [if_pos h]

theorem decodeLastRune_two (pre : GoString) (b0 b1 : Nat) (h0 : 0xC2 ≤ b0 ∧ b0 < 0xE0)
    (h1 : 0x80 ≤ b1 ∧ b1 ≤ 0xBF) :
    decodeLastRune (pre ++ [b0, b1]) = decodeRune [b0, b1] := by
  have hd := decodeRune_two b0 b1 [] h0 h1
  have hstart : lastRuneStart (pre ++ [b0, b1]) = pre.length := by
    unfold lastRuneStart
    simp only [List.length_append, List.length_cons, List.length_nil]
    rw [getD_append_add pre [b0, b1] 0 _ (by omega)]
    simp only [List.getD_cons_zero]
    rw [if_pos ⟨by omega, runeStart_lead b0 (by omega)⟩]
    omega
  unfold decodeLastRune
  simp only [List.length_append, List.length_cons, List.length_nil]
  rw [if_neg (by omega), getD_append_add pre [b0, b1] 1 _ (by omega)]
  simp only [List.getD_cons_succ, List.getD_cons_zero]
  rw [if_neg (by omega), hstart, List.drop_left, hd]
  simp

theorem decodeLastRune_three (pre : GoString) (b0 b1 b2 : Nat) (h0 : 0xE0 ≤ b0 ∧ b0 < 0xF0)
    (h1 : acceptLo b0 ≤ b1 ∧ b1 ≤ acceptHi b0) (h2 : 0x80 ≤ b2 ∧ b2 ≤ 0xBF) :
    decodeLastRune (pre ++ [b0, b1, b2]) = decodeRune [b0, b1, b2] := by
  have hd := decodeRune_three b0 b1 b2 [] h0 h1 h2
  have hb1 : 0x80 ≤ b1 ∧ b1 < 0xC0 := by
    unfold acceptLo acceptHi at h1
    split_ifs at h1 <;> omega
  have hstart : lastRuneStart (pre ++ [b0, b1, b2]) = pre.length := by
    unfold lastRuneStart
    simp only [List.length_append, List.length_cons, List.length_nil]
    rw [getD_append_add pre [b0, b1, b2] 1 (pre.length + (0 + 1 + 1 + 1) - 2) (by omega),
      getD_append_add pre [b0, b1, b2] 0 (pre.length + (0 + 1 + 1 + 1) - 3) (by omega)]
    simp only [List.getD_cons_succ, List.getD_cons_zero]
    rw [if_neg (by rw [runeStart_cont b1 hb1]; simp),
      if_pos ⟨by omega, runeStart_lead b0 (by omega)⟩]
    omega
  unfold decodeLastRune
  simp only [List.length_append, List.length_cons, List.length_nil]
  rw [if_neg (by omega), getD_append_add pre [b0, b1, b2] 2 _ (by omega)]
  simp only [List.getD_cons_succ, List.getD_cons_zero]
  rw [if_neg (by omega), hstart, List.drop_left, hd]
  simp

theorem decodeLastRune_four (pre : GoString) (b0 b1 b2 b3 : Nat)
    (h0 : 0xF0 ≤ b0 ∧ b0 < 0xF5) (h1 : acceptLo b0 ≤ b1 ∧ b1 ≤ acceptHi b0)
    (h2 : 0x80 ≤ b2 ∧ b2 ≤ 0xBF) (h3 : 0x80 ≤ b3 ∧ b3 ≤ 0xBF) :
    decodeLastRune (pre ++ [b0, b1, b2, b3]) = decodeRune [b0, b1, b2, b3] := by
  have hd := decodeRune_four b0 b1 b2 b3 [] h0 h1 h2 h3
  have hb1 : 0x80 ≤ b1 ∧ b1 < 0xC0 := by
    unfold acceptLo acceptHi at h1
    split_ifs at h1 <;> omega
  have hstart : lastRuneStart (pre ++ [b0, b1, b2, b3]) = pre.length := by
    unfold lastRuneStart
    simp only [List.length_append, List.length_cons, List.length_nil]
    rw [getD_append_add pre [b0, b1, b2, b3] 2 (pre.length + (0 + 1 + 1 + 1 + 1) - 2)
        (by omega),
      getD_append_add pre [b0, b1, b2, b3] 1 (pre.length + (0 + 1 + 1 + 1 + 1) - 3)
        (by omega),
      getD_append_add pre [b0, b1, b2, b3] 0 (pre.length + (0 + 1 + 1 + 1 + 1) - 4)
        (by omega)]
    simp only [List.getD_cons_succ, List.getD_cons_zero]
    rw [if_neg (by rw [runeStart_cont b2 (by omega)]; simp),
      if_neg (by rw [runeStart_cont b1 hb1]; simp),
      if_pos ⟨by omega, runeStart_lead b0 (by omega)⟩]
    omega
  unfold decodeLastRune
  simp only [List.length_append, List.length_cons, List.length_nil]
  rw [if_neg (by omega), getD_append_add pre [b0, b1, b2, b3] 3 _ (by omega)]
  simp only [List.getD_cons_succ, List.getD_cons_zero]
  rw [if_neg (by omega), hstart, List.drop_left, hd]
  simp

/-- Decoding backwards from the end of a string that ends with the encoding of
a scalar value gives the value back, whatever precedes. -/
theorem decodeLastRune_encodeRune (n : Nat) (pre : GoString) (h : isScalar n) :
    decodeLastRune (pre ++ encodeRune n) = (n, (encodeRune n).length) := by
  have hdec := decodeRune_encodeRune n [] h
  rw [List.append_nil] at hdec
  rw [← hdec]
  unfold isScalar at h
  unfold encodeRune
  split_ifs with a b c
  · rw [decodeLastRune_ascii pre n a, decodeRune_ascii n [] a]
  · exact decodeLastRune_two pre _ _ (by omega) (by omega)
  · exact decodeLastRune_three pre _ _ _ (by omega)
      (by unfold acceptLo acceptHi; split_ifs <;> omega) (by omega)
  · exact decodeLastRune_four pre _ _ _ _ (by omega)
      (by unfold acceptLo acceptHi; split_ifs <;> omega) (by omega) (by omega)

theorem utf8Chars_append (a b : List Char) :
    utf8Chars (a ++ b) = utf8Chars a ++ utf8Chars b := by
  induction a with
  | nil => rfl
  | cons c cs ih => simp [utf8Chars, ih]

theorem utf8Chars_cons_ne_nil (c : Char) (cs : List Char) : utf8Chars (c :: cs) ≠ [] := by
  intro hnil
  have := congrArg List.length hnil
  have hpos := encodeRune_length_pos c.toNat
  simp only [utf8Chars, List.length_append, List.length_nil] at this
  omega

theorem trimLeftLoop_utf8Chars (cs : List Char) (fuel : Nat)
    (h : (utf8Chars cs).length ≤ fuel) :
    trimLeftLoop fuel (utf8Chars cs)
      = utf8Chars (cs.dropWhile isSpaceChar) := by
  induction cs generalizing fuel with
  | nil => cases fuel <;> simp [utf8Chars, trimLeftLoop]
  | cons c cs ih =>
    have hpos := encodeRune_length_pos c.toNat
    have hne := utf8Chars_cons_ne_nil c cs
    cases fuel with
    | zero =>
      simp only [utf8Chars, List.length_append] at h
      omega
    | succ fuel =>
      simp only [trimLeftLoop]
      rw [if_neg hne]
      have hdec : decodeRune (utf8Chars (c :: cs)) = (c.toNat, (encodeRune c.toNat).length) :=
        decodeRune_encodeRune _ _ (char_isScalar c)
      rw [hdec]
      simp only
      by_cases hsp : isSpaceChar c = true
      · rw [if_pos (show isSpace c.toNat = true from hsp), List.dropWhile_cons_of_pos hsp]
        simp only [utf8Chars, List.drop_left]
        apply ih
        simp only [utf8Chars, List.length_append] at h
        omega
      · rw [if_neg (show ¬ isSpace c.toNat = true from hsp), List.dropWhile_cons_of_neg hsp]

theorem trimRightLoop_utf8Chars (cs : List Char) (fuel : Nat)
    (h : (utf8Chars cs).length ≤ fuel) :
    trimRightLoop fuel (utf8Chars cs)
      = utf8Chars (cs.rdropWhile isSpaceChar) := by
  induction cs using List.reverseRecOn generalizing fuel with
  | nil => cases fuel <;> simp [utf8Chars, trimRightLoop]
  | append_singleton cs c ih =>
    have hpos := encodeRune_length_pos c.toNat
    have henc : utf8Chars (cs ++ [c]) = utf8Chars cs ++ encodeRune c.toNat := by
      rw [utf8Chars_append]
      simp [utf8Chars]
    have hne : utf8Chars (cs ++ [c]) ≠ [] := by
      intro hnil
      have := congrArg List.length hnil
      rw [henc] at this
      simp only [List.length_append, List.length_nil] at this
      omega
    cases fuel with
    | zero =>
      rw [henc] at h
      simp only [List.length_append] at h
      omega
    | succ fuel =>
      simp only [trimRightLoop]
      rw [if_neg hne]
      have hdec : decodeLastRune (utf8Chars (cs ++ [c]))
          = (c.toNat, (encodeRune c.toNat).length) := by
        rw [henc]
        exact decodeLastRune_encodeRune _ _ (char_isScalar c)
      rw [hdec]
      simp only
      by_cases hsp : isSpaceChar c = true
      · rw [if_pos (show isSpace c.toNat = true from hsp), List.rdropWhile_concat_pos _ _ _ hsp]
        have htake : List.take ((utf8Chars (cs ++ [c])).length - (encodeRune c.toNat).length)
            (utf8Chars (cs ++ [c])) = utf8Chars cs := by
          rw [henc, List.length_append, Nat.add_sub_cancel, List.take_left]
        rw [htake]
        apply ih
        rw [henc, List.length_append] at h
        omega
      · rw [if_neg (show ¬ isSpace c.toNat = true from hsp), List.rdropWhile_concat_neg _ _ _ hsp]

/-- On the UTF-8 encoding of a text, `TrimSpace` removes exactly the leading and
the trailing white-space characters of the text. -/
theorem TrimSpace_utf8Chars (cs : List Char) :
    TrimSpace (utf8Chars cs)
      = utf8Chars ((cs.dropWhile isSpaceChar).rdropWhile
          isSpaceChar) := by
  unfold TrimSpace
  simp only
  rw [trimLeftLoop_utf8Chars cs _ (Nat.le_refl _)]
  exact trimRightLoop_utf8Chars _ _ (Nat.le_refl _)

/-! ## `translate` -/

theorem looksThai_eq_any (s : GoString) :
    looksThai s = (runes s).any (fun r => decide (0x0E00 ≤ r ∧ r ≤ 0x0E7F)) :=
  looksThaiLoop_eq_any s.length s

/-- The receive loop on chunks that all carry a fragment: the fragments are
appended in arrival order, and the closing error decides the result. -/
theorem recvLoop_fragments (fr : List (GoString × List ChatCompletionStreamChoice))
    (last : GoError) (out : GoString) :
    recvLoop (fragmentChunks fr) last out
      = if last.isEOF = true then .ret (.ok (out ++ concatFragments fr))
        else .ret (.error last) := by
  induction fr generalizing out with
  | nil => simp [fragmentChunks, recvLoop, concatFragments, errorsIsEOF]
  | cons p rest ih =>
    have := ih (out ++ p.1)
    simp only [fragmentChunks, List.map_cons, recvLoop, concatFragments] at this ⊢
    rw [this, List.append_assoc]

theorem translate_open_error (client : Client) (text : GoString) (e : GoError)
    (h : client (param text) = .error e) :
    translate client text = .ret ⟨[], [], some e⟩ := by
  simp [translate, h]

theorem translate_recv_error (client : Client) (text : GoString)
    (fr : List (GoString × List ChatCompletionStreamChoice)) (last : GoError)
    (h : client (param text) = .ok ⟨fragmentChunks fr, last⟩) (he : last.isEOF = false) :
    translate client text = .ret ⟨[], [], some last⟩ := by
  simp [translate, h, recvLoop_fragments, he]

theorem translate_eof (client : Client) (text : GoString)
    (fr : List (GoString × List ChatCompletionStreamChoice)) (last : GoError)
    (h : client (param text) = .ok ⟨fragmentChunks fr, last⟩) (he : last.isEOF = true) :
    translate client text
      = .ret ⟨TrimSpace (concatFragments fr),
          if looksThai text = true then utf8 "th→en" else utf8 "en→th", none⟩ := by
  simp only [translate, h, recvLoop_fragments, he, if_true, List.nil_append]
  split_ifs <;> rfl

/-- A successful call of `translate` returns the tag chosen by `looksThai` on
the input text. -/
theorem translate_detected (client : Client) (text : GoString) (r : TranslateResult)
    (h : translate client text = .ret r) (he : r.err = none) :
    r.detected = if looksThai text = true then utf8 "th→en" else utf8 "en→th" := by
  unfold translate at h
  split at h
  · simp only [Go.ret.injEq] at h
    subst h
    simp at he
  · split at h
    · exact Go.noConfusion h
    · simp only [Go.ret.injEq] at h
      subst h
      simp at he
    · split_ifs at h with hl
      · simp only [Go.ret.injEq] at h
        subst h
        exact (if_pos hl).symm
      · simp only [Go.ret.injEq] at h
        subst h
        exact (if_neg hl).symm

/-! ## The event loop -/

theorem translateCalls_append (a b : List Effect) :
    translateCalls (a ++ b) = translateCalls a ++ translateCalls b := by
  induction a with
  | nil => rfl
  | cons e rest ih => cases e <;> simp [translateCalls, ih]

theorem replyCalls_append (a b : List Effect) :
    replyCalls (a ++ b) = replyCalls a ++ replyCalls b := by
  induction a with
  | nil => rfl
  | cons e rest ih => cases e <;> simp [replyCalls, ih]

/-- The loop body calls `translate` once for a text-message event and not at all
for any other event. -/
theorem processEvent_translateCalls (client : Client) (send : Sender) (event : Event) :
    translateCalls (processEvent client send event).effects = textEvents [event] := by
  rcases event with ⟨replyToken, text | kind⟩ | kind
  · simp only [processEvent, textEvents]
    cases translate client text with
    | panicked msg => simp [translateCalls]
    | ret r =>
      rcases r with ⟨translated, detected, _ | terr⟩
      · simp only
        cases send replyToken (replyText detected translated) <;> simp [translateCalls]
      · simp only
        cases send replyToken errorReply <;> simp [translateCalls]
  · simp [processEvent, textEvents, translateCalls]
  · simp [processEvent, textEvents, translateCalls]

/-- A loop body that does not panic sends one reply for a text-message event and
none for any other event. -/
theorem processEvent_replyCalls_length (client : Client) (send : Sender) (event : Event)
    (h : (processEvent client send event).panicked = false) :
    (replyCalls (processEvent client send event).effects).length
      = (textEvents [event]).length := by
  rcases event with ⟨replyToken, text | kind⟩ | kind
  · simp only [processEvent, textEvents] at h ⊢
    cases hT : translate client text with
    | panicked msg => simp [hT] at h
    | ret r =>
      rcases r with ⟨translated, detected, _ | terr⟩
      · simp only
        cases send replyToken (replyText detected translated) <;> simp [replyCalls]
      · simp only
        cases send replyToken errorReply <;> simp [replyCalls]
  · simp [processEvent, textEvents, replyCalls]
  · simp [processEvent, textEvents, replyCalls]

theorem textEvents_cons (event : Event) (rest : List Event) :
    textEvents (event :: rest) = textEvents [event] ++ textEvents rest := by
  rcases event with ⟨replyToken, text | kind⟩ | kind <;> simp [textEvents]

/-- When no call of `translate` panics, the event loop calls `translate` once
for every text-message event, in payload order, and sends one reply for each. -/
theorem eventLoop_calls (ai : Nat → Client) (bot : Nat → Sender) (i : Nat)
    (events : List Event) (h : (eventLoop ai bot i events).panicked = false) :
    translateCalls (eventLoop ai bot i events).effects = textEvents events ∧
    (replyCalls (eventLoop ai bot i events).effects).length = (textEvents events).length := by
  induction events generalizing i with
  | nil => simp [eventLoop, translateCalls, replyCalls, textEvents]
  | cons event rest ih =>
    simp only [eventLoop] at h ⊢
    by_cases hp : (processEvent (ai i) (bot i) event).panicked = true
    · rw [if_pos hp] at h
      rw [hp] at h
      exact Bool.noConfusion h
    · rw [if_neg hp] at h ⊢
      simp only at h ⊢
      have hp2 : (processEvent (ai i) (bot i) event).panicked = false := by
        simpa using hp
      obtain ⟨h1, h2⟩ := ih (i + 1) h
      rw [translateCalls_append, replyCalls_append, List.length_append, h1, h2,
        processEvent_translateCalls, processEvent_replyCalls_length _ _ _ hp2,
        textEvents_cons event rest, List.length_append]
      exact ⟨rfl, rfl⟩

theorem recvLoop_no_panic (chunks : List ChatCompletionStreamResponse) (last : GoError)
    (out : GoString) (h : ∀ c ∈ chunks, c.choices ≠ []) :
    ∃ r, recvLoop chunks last out = .ret r := by
  induction chunks generalizing out with
  | nil =>
    simp only [recvLoop]
    split_ifs
    · exact ⟨_, rfl⟩
    · exact ⟨_, rfl⟩
  | cons c rest ih =>
    have hc := h c (List.mem_cons_self _ _)
    rcases c with ⟨choices⟩
    cases choices with
    | nil => exact absurd rfl hc
    | cons choice more =>
      simp only [recvLoop]
      exact ih _ (fun c hc => h c (List.mem_cons_of_mem _ hc))

/-- When every chunk of the stream carries a choice, `translate` returns. -/
theorem translate_no_panic (client : Client) (text : GoString)
    (h : ∀ stream, client (param text) = .ok stream → ∀ c ∈ stream.chunks, c.choices ≠ []) :
    ∃ r, translate client text = .ret r := by
  unfold translate
  cases hc : client (param text) with
  | error e => exact ⟨_, rfl⟩
  | ok stream =>
    obtain ⟨r, hr⟩ := recvLoop_no_panic stream.chunks stream.last [] (h stream hc)
    simp only [hr]
    cases r with
    | error e => exact ⟨_, rfl⟩
    | ok out =>
      simp only
      split_ifs
      · exact ⟨_, rfl⟩
      · exact ⟨_, rfl⟩

theorem processEvent_no_panic (client : Client) (send : Sender) (event : Event)
    (h : ∀ req stream, client req = .ok stream → ∀ c ∈ stream.chunks, c.choices ≠ []) :
    (processEvent client send event).panicked = false := by
  rcases event with ⟨replyToken, text | kind⟩ | kind
  · obtain ⟨r, hr⟩ := translate_no_panic client text (h (param text))
    simp only [processEvent, hr]
    rcases r with ⟨translated, detected, _ | terr⟩
    · simp only
      cases send replyToken (replyText detected translated) <;> rfl
    · simp only
      cases send replyToken errorReply <;> rfl
  · rfl
  · rfl

/-- When every chunk of every stream carries a choice, the event loop runs to
the end of the payload. -/
theorem eventLoop_no_panic (ai : Nat → Client) (bot : Nat → Sender) (i : Nat)
    (events : List Event)
    (h : ∀ j req stream, ai j req = .ok stream → ∀ c ∈ stream.chunks, c.choices ≠ []) :
    (eventLoop ai bot i events).panicked = false := by
  induction events generalizing i with
  | nil => rfl
  | cons event rest ih =>
    simp only [eventLoop]
    rw [processEvent_no_panic (ai i) (bot i) event (h i)]
    simpa using ih (i + 1)

/-! ## Checks of the library model on concrete strings -/

theorem runes_examples :
    runes (utf8 "aé→😀") = [97, 233, 8594, 128512] ∧
    runes [0xE0, 0x80, 0x41, 0xED, 0xA0, 0x80]
      = [0xFFFD, 0xFFFD, 0x41, 0xFFFD, 0xFFFD, 0xFFFD] ∧
    decodeLastRune (utf8 "a→") = (8594, 3) ∧
    decodeLastRune [0x41, 0x80, 0x80, 0x80, 0x80, 0x80] = (0xFFFD, 1) := by
  decide

theorem utf8_examples :
    utf8 "é" = [0xC3, 0xA9] ∧
    utf8 "→" = [0xE2, 0x86, 0x92] ∧
    utf8 "ส" = [0xE0, 0xB8, 0xAA] ∧
    utf8 "😀" = [0xF0, 0x9F, 0x98, 0x80] ∧
    utf8 "th→en" = [0x74, 0x68, 0xE2, 0x86, 0x92, 0x65, 0x6E] ∧
    ("สวัสดี ❌ aé→😀".toUTF8.data.toList.map UInt8.toNat) = utf8 "สวัสดี ❌ aé→😀" := by
  decide

theorem TrimSpace_examples :
    TrimSpace (utf8 " \t hi there  　\n") = utf8 "hi there" ∧
    TrimSpace (utf8 "　") = [] ∧
    TrimSpace (utf8 "สวัสดี ") = utf8 "สวัสดี" := by
  decide

/-! ## The claims -/

/-- Claim C1. `looksThai s` is `true` exactly when the string contains a code
point between `0x0E00` and `0x0E7F`, both bounds included. This holds for every
byte string, read as the `range` loop reads it, and for the UTF-8 encoding of
every text, read as its characters; `looksThai` is `true` on "สวัสดี" and `false`
on "hello" and on the empty string. -/
theorem looksThai_iff_thai_code_point :
    (∀ s : GoString, looksThai s = true ↔ ∃ c ∈ runes s, 0x0E00 ≤ c ∧ c ≤ 0x0E7F) ∧
    (∀ cs : List Char,
      looksThai (utf8Chars cs) = true ↔ ∃ c ∈ cs, 0x0E00 ≤ c.toNat ∧ c.toNat ≤ 0x0E7F) ∧
    looksThai (utf8 "สวัสดี") = true ∧
    looksThai (utf8 "hello") = false ∧
    looksThai (utf8 "") = false := by
  refine ⟨?_, ?_, by decide, by decide, by decide⟩
  · intro s
    rw [looksThai_eq_any, List.any_eq_true]
    constructor
    · rintro ⟨c, hc, h⟩
      exact ⟨c, hc, of_decide_eq_true h⟩
    · rintro ⟨c, hc, h⟩
      exact ⟨c, hc, decide_eq_true h⟩
  · intro cs
    rw [looksThai_eq_any, runes_utf8Chars, List.any_eq_true]
    constructor
    · rintro ⟨n, hn, h⟩
      obtain ⟨c, hc, rfl⟩ := List.mem_map.mp hn
      exact ⟨c, hc, of_decide_eq_true h⟩
    · rintro ⟨c, hc, h⟩
      exact ⟨c.toNat, List.mem_map.mpr ⟨c, hc, rfl⟩, decide_eq_true h⟩

/-- Claim C2. When the stream of a call of `translate` delivers its fragments
and then ends with end-of-stream, the call succeeds and its direction tag is
"th→en" if `looksThai text` holds and "en→th" otherwise; and every successful
run on the same text, whatever its stream delivered, returns that same tag. -/
theorem translate_direction_tag (text : GoString) (client : Client)
    (fr : List (GoString × List ChatCompletionStreamChoice)) (last : GoError)
    (h : client (param text) = .ok ⟨fragmentChunks fr, last⟩) (he : last.isEOF = true) :
    (∃ translated, translate client text
        = .ret ⟨translated, if looksThai text = true then utf8 "th→en" else utf8 "en→th",
            none⟩) ∧
    (∀ (client2 : Client) (r2 : TranslateResult),
      translate client2 text = .ret r2 → r2.err = none →
        r2.detected = if looksThai text = true then utf8 "th→en" else utf8 "en→th") :=
  ⟨⟨_, translate_eof client text fr last h he⟩,
    fun client2 r2 h2 he2 => translate_detected client2 text r2 h2 he2⟩

/-- Claim C2 at the text "hello" with a stream of two Thai fragments. -/
theorem translate_direction_tag_witness :
    (∃ translated, translate
        (fun _ => .ok ⟨fragmentChunks [(utf8 "สวัส", []), (utf8 "ดี ", [])], GoError.eof⟩)
        (utf8 "hello")
        = .ret ⟨translated, utf8 "en→th", none⟩) ∧
    (∀ (client2 : Client) (r2 : TranslateResult),
      translate client2 (utf8 "hello") = .ret r2 → r2.err = none →
        r2.detected = utf8 "en→th") :=
  translate_direction_tag (utf8 "hello")
    (fun _ => .ok ⟨fragmentChunks [(utf8 "สวัส", []), (utf8 "ดี ", [])], GoError.eof⟩)
    [(utf8 "สวัส", []), (utf8 "ดี ", [])] GoError.eof rfl rfl

/-- Claim C3. The status written by the handler of `/line/webhook` is `400` when
parsing fails with the invalid-signature error, `500` when it fails with any
other error and `200` when it succeeds; it is the same whatever the completion
API and the reply endpoint do for the events of the request. -/
theorem webhookHandler_status (parsed : Except ParseError (List Event))
    (ai ai2 : Nat → Client) (bot bot2 : Nat → Sender) :
    (webhookHandler parsed ai bot).status
        = (match parsed with
          | .error .invalidSignature => 400
          | .error (.other _) => 500
          | .ok _ => 200) ∧
    (webhookHandler parsed ai2 bot2).status = (webhookHandler parsed ai bot).status := by
  cases parsed with
  | error err => cases err <;> simp [webhookHandler, StatusBadRequest, StatusInternalServerError]
  | ok events => simp [webhookHandler, StatusOK]

/-- Claim C4. When the signature of a request is invalid the handler answers
`400`, starts no background task, and so issues no call of `translate` and no
reply. -/
theorem webhookHandler_invalid_signature (ai : Nat → Client) (bot : Nat → Sender) :
    (webhookHandler (.error .invalidSignature) ai bot).status = 400 ∧
    (webhookHandler (.error .invalidSignature) ai bot).background = none ∧
    downstreamCalls (webhookHandler (.error .invalidSignature) ai bot) = [] := by
  simp [webhookHandler, StatusBadRequest, downstreamCalls]

/-- Claim C5, evaluated where it fails. The payload holds two text-message
events; the stream of the first one delivers a chunk without choices. The call
of `translate` for the first event panics, the loop ends there, and `translate`
is never called for the second event: one call instead of two, and no reply.
(Without a panic the count is right: `eventLoop_calls`.) -/
theorem eventLoop_panic_skips_later_events :
    textEvents [.message (utf8 "t1") (.text (utf8 "hello")),
        .message (utf8 "t2") (.text (utf8 "สวัสดี"))]
      = [utf8 "hello", utf8 "สวัสดี"] ∧
    eventLoop
        (fun i _ => if i = 0 then .ok ⟨[⟨[]⟩], GoError.eof⟩
          else .ok ⟨[⟨[⟨utf8 "Hello"⟩]⟩], GoError.eof⟩)
        (fun _ _ _ => none) 0
        [.message (utf8 "t1") (.text (utf8 "hello")),
          .message (utf8 "t2") (.text (utf8 "สวัสดี"))]
      = ⟨[.translateCall (utf8 "hello")], true⟩ ∧
    translateCalls (eventLoop
        (fun i _ => if i = 0 then .ok ⟨[⟨[]⟩], GoError.eof⟩
          else .ok ⟨[⟨[⟨utf8 "Hello"⟩]⟩], GoError.eof⟩)
        (fun _ _ _ => none) 0
        [.message (utf8 "t1") (.text (utf8 "hello")),
          .message (utf8 "t2") (.text (utf8 "สวัสดี"))]).effects
      = [utf8 "hello"] := by
  refine ⟨rfl, rfl, rfl⟩

/-- Claim C6. When `translate` succeeds on a text-message event with the result
`(translated, dir)`, exactly one reply is sent, on the reply token of the event,
and its text is `"[" ++ dir ++ "] " ++ translated`; for the text "hello" it is
"[en→th] " followed by the translated text. -/
theorem processEvent_translation_reply (client : Client) (send : Sender)
    (replyToken text translated dir : GoString)
    (h : translate client text = .ret ⟨translated, dir, none⟩) :
    replyCalls (processEvent client send (.message replyToken (.text text))).effects
        = [(replyToken, utf8 "[" ++ dir ++ utf8 "] " ++ translated)] ∧
    (processEvent client send (.message replyToken (.text text))).panicked = false ∧
    (text = utf8 "hello" →
      replyCalls (processEvent client send (.message replyToken (.text text))).effects
        = [(replyToken, utf8 "[en→th] " ++ translated)]) := by
  have key : replyCalls (processEvent client send (.message replyToken (.text text))).effects
        = [(replyToken, utf8 "[" ++ dir ++ utf8 "] " ++ translated)] ∧
      (processEvent client send (.message replyToken (.text text))).panicked = false := by
    simp only [processEvent, h, replyText]
    cases send replyToken (utf8 "[" ++ dir ++ utf8 "] " ++ translated) <;>
      simp [replyCalls]
  refine ⟨key.1, key.2, ?_⟩
  intro ht
  have hd := translate_detected client text _ h rfl
  subst ht
  rw [key.1]
  have hl : looksThai (utf8 "hello") = false := by decide
  simp only [hl] at hd
  rw [hd]
  rfl

/-- Claim C6 at the text "hello", translated by a stream of two fragments. -/
theorem processEvent_translation_reply_witness :
    replyCalls (processEvent
        (fun _ => .ok ⟨fragmentChunks [(utf8 " สวัส", []), (utf8 "ดี\n", [])], GoError.eof⟩)
        (fun _ _ => none) (.message (utf8 "tok") (.text (utf8 "hello")))).effects
      = [(utf8 "tok", utf8 "[en→th] สวัสดี")] :=
  ((processEvent_translation_reply
      (fun _ => .ok ⟨fragmentChunks [(utf8 " สวัส", []), (utf8 "ดี\n", [])], GoError.eof⟩)
      (fun _ _ => none) (utf8 "tok") (utf8 "hello") (utf8 "สวัสดี") (utf8 "en→th")
      (by decide)).2.2 rfl)

/-- Claim C7. When `translate` returns an error for a text-message event,
exactly one reply is sent, on the reply token of the event, with the fixed text
"❌ Translation error, please try again"; no other reply is sent for it. Every
stream error is such a failure: an error at opening the stream, and an error of
a receive that is not end-of-stream (this is how an expired deadline shows). -/
theorem processEvent_error_reply (client : Client) (send : Sender)
    (replyToken text : GoString) (r : TranslateResult) (terr : GoError)
    (h : translate client text = .ret r) (he : r.err = some terr) :
    replyCalls (processEvent client send (.message replyToken (.text text))).effects
        = [(replyToken, utf8 "❌ Translation error, please try again")] ∧
    (processEvent client send (.message replyToken (.text text))).panicked = false ∧
    (∀ (client2 : Client) (fr : List (GoString × List ChatCompletionStreamChoice))
        (e : GoError),
      client2 (param text) = .error e ∨
        (client2 (param text) = .ok ⟨fragmentChunks fr, e⟩ ∧ e.isEOF = false) →
      translate client2 text = .ret ⟨[], [], some e⟩) := by
  refine ⟨?_, ?_, ?_⟩
  · simp only [processEvent, h, he]
    cases send replyToken errorReply <;> simp [replyCalls, errorReply]
  · simp only [processEvent, h, he]
    cases send replyToken errorReply <;> rfl
  · rintro client2 fr e (hopen | ⟨hok, he2⟩)
    · exact translate_open_error client2 text e hopen
    · exact translate_recv_error client2 text fr e hok he2

/-- Claim C7 at a stream that breaks off with a deadline error. -/
theorem processEvent_error_reply_witness :
    replyCalls (processEvent
        (fun _ => .ok ⟨fragmentChunks [(utf8 "สวัส", [])],
          GoError.other "context deadline exceeded"⟩)
        (fun _ _ => none) (.message (utf8 "tok") (.text (utf8 "hello")))).effects
      = [(utf8 "tok", utf8 "❌ Translation error, please try again")] :=
  (processEvent_error_reply
      (fun _ => .ok ⟨fragmentChunks [(utf8 "สวัส", [])],
        GoError.other "context deadline exceeded"⟩)
      (fun _ _ => none) (utf8 "tok") (utf8 "hello")
      ⟨[], [], some (GoError.other "context deadline exceeded")⟩
      (GoError.other "context deadline exceeded") (by decide) rfl).1

/-- Claim C8, evaluated on the code. For every text the request holds nine
messages, not eight: the system instruction, the six turns of three few-shot
examples, a seventh fixed turn (the user turn "สวัสดีครับ" once more, with no
answer), and the text as the last turn, with the role `user`. The first eight
messages do not depend on the text. -/
theorem param_messages (text : GoString) :
    (param text).messages.length = 9 ∧
    (param text).messages.head? = some ⟨utf8 "system", sys⟩ ∧
    (param text).messages.get? 7 = some ⟨utf8 "user", utf8 "สวัสดีครับ"⟩ ∧
    (param text).messages.get? 8 = some ⟨utf8 "user", text⟩ ∧
    (param text).messages.take 8 = (param []).messages.take 8 := by
  refine ⟨rfl, rfl, rfl, rfl, rfl⟩

/-- Claim C9. If opening the stream fails with `e`, `translate` returns `e` with
empty text and tag. If the receives deliver fragments and then an error `e` that
is not end-of-stream, it returns `e` with empty text and tag. If they deliver
fragments and then end-of-stream, it succeeds with the fragments concatenated in
arrival order and trimmed, a text that neither starts nor ends with a
white-space character; when the fragments together encode a text, the result
encodes that text without its leading and trailing white-space characters. -/
theorem translate_stream_results (client : Client) (text : GoString)
    (fr : List (GoString × List ChatCompletionStreamChoice)) (e : GoError) :
    (client (param text) = .error e → translate client text = .ret ⟨[], [], some e⟩) ∧
    (client (param text) = .ok ⟨fragmentChunks fr, e⟩ → e.isEOF = false →
      translate client text = .ret ⟨[], [], some e⟩) ∧
    (client (param text) = .ok ⟨fragmentChunks fr, e⟩ → e.isEOF = true →
      translate client text
          = .ret ⟨TrimSpace (concatFragments fr),
              if looksThai text = true then utf8 "th→en" else utf8 "en→th", none⟩ ∧
        ¬ startsWithSpace (TrimSpace (concatFragments fr)) ∧
        ¬ endsWithSpace (TrimSpace (concatFragments fr))) ∧
    (∀ cs : List Char, concatFragments fr = utf8Chars cs →
      TrimSpace (concatFragments fr)
        = utf8Chars ((cs.dropWhile isSpaceChar).rdropWhile isSpaceChar)) :=
  ⟨translate_open_error client text e,
    translate_recv_error client text fr e,
    fun h he => ⟨translate_eof client text fr e h he, TrimSpace_trimmed _⟩,
    fun cs hcs => by rw [hcs]; exact TrimSpace_utf8Chars cs⟩

/-- Claim C9 at three streams: one that cannot be opened, one that breaks off
after a fragment, and one that delivers " Hel", "lo" and a newline and ends. -/
theorem translate_stream_results_witness :
    translate (fun _ => .error (GoError.other "connection refused")) (utf8 "hello")
        = .ret ⟨[], [], some (GoError.other "connection refused")⟩ ∧
    translate
        (fun _ => .ok ⟨fragmentChunks [(utf8 "สวัส", [])], GoError.other "unexpected EOF"⟩)
        (utf8 "hello")
        = .ret ⟨[], [], some (GoError.other "unexpected EOF")⟩ ∧
    (translate
        (fun _ => .ok ⟨fragmentChunks [(utf8 " Hel", []), (utf8 "lo", []), (utf8 "\n", [])],
          GoError.eof⟩)
        (utf8 "สวัสดี")
        = .ret ⟨TrimSpace (concatFragments [(utf8 " Hel", []), (utf8 "lo", []), (utf8 "\n", [])]),
            if looksThai (utf8 "สวัสดี") = true then utf8 "th→en" else utf8 "en→th", none⟩ ∧
      ¬ startsWithSpace
          (TrimSpace (concatFragments [(utf8 " Hel", []), (utf8 "lo", []), (utf8 "\n", [])])) ∧
      ¬ endsWithSpace
          (TrimSpace (concatFragments [(utf8 " Hel", []), (utf8 "lo", []), (utf8 "\n", [])]))) ∧
    TrimSpace (concatFragments [(utf8 " Hel", []), (utf8 "lo", []), (utf8 "\n", [])])
      = utf8 "Hello" :=
  ⟨(translate_stream_results (fun _ => .error (GoError.other "connection refused"))
      (utf8 "hello") [] (GoError.other "connection refused")).1 rfl,
    (translate_stream_results
      (fun _ => .ok ⟨fragmentChunks [(utf8 "สวัส", [])], GoError.other "unexpected EOF"⟩)
      (utf8 "hello") [(utf8 "สวัส", [])] (GoError.other "unexpected EOF")).2.1 rfl rfl,
    (translate_stream_results
      (fun _ => .ok ⟨fragmentChunks [(utf8 " Hel", []), (utf8 "lo", []), (utf8 "\n", [])],
        GoError.eof⟩)
      (utf8 "สวัสดี") [(utf8 " Hel", []), (utf8 "lo", []), (utf8 "\n", [])] GoError.eof).2.2.1
      rfl rfl,
    (translate_stream_results
      (fun _ => .ok ⟨fragmentChunks [(utf8 " Hel", []), (utf8 "lo", []), (utf8 "\n", [])],
        GoError.eof⟩)
      (utf8 "สวัสดี") [(utf8 " Hel", []), (utf8 "lo", []), (utf8 "\n", [])] GoError.eof).2.2.2
      " Hello\n".data rfl⟩

/-- Claim C10, evaluated where it fails. A chunk received without error whose
list of choices is empty makes `response.Choices[0]` panic: `translate` does not
return, and the event gets neither a translation nor the error reply. -/
theorem translate_panics_on_empty_choices :
    translate (fun _ => .ok ⟨[⟨[]⟩], GoError.eof⟩) (utf8 "hello")
        = .panicked "runtime error: index out of range [0] with length 0" ∧
    processEvent (fun _ => .ok ⟨[⟨[]⟩], GoError.eof⟩) (fun _ _ => none)
        (.message (utf8 "tok") (.text (utf8 "hello")))
        = ⟨[.translateCall (utf8 "hello")], true⟩ := by
  constructor <;> rfl

end Threnslator
